import Mathlib

/-!
Verification of `generate-samples.py`: a generator of sine-wave WAV sample
banks for MIDI notes 21-108, 8 velocity tiers and 2 sample rates.

The source is embedded shallowly:
* Python floats are modelled as real numbers (`ℝ`);
* `int(x)` is truncation toward zero (`truncToZero`);
* `np.int16(x)` first truncates toward zero and then wraps modulo 2^16
  into the signed 16-bit range (`toInt16`, via `Int.bmod _ 65536`);
* `np.linspace(0, duration, n, endpoint=False)` yields the times
  `i * duration / n` for `i < n` (`sampleTimes`);
* the stereo interleave `np.column_stack((x, x)).flatten()` duplicates every
  mono sample (`stereo`);
* `platform.system() == 'Windows'` is an injected boolean, `os.path.expanduser`
  an injected home directory string (the driver reads nothing else from its
  environment);
* the file-system side of the driver is modelled as the list of
  (filename, data) pairs that one run writes, in write order (`generatorRun`),
  with `struct.pack('<h', v)` as the two little-endian bytes `packInt16LE v`.
-/

open Real

set_option maxRecDepth 40000

/-- Python `int(x)` on a float: truncation toward zero. -/
noncomputable def truncToZero (x : ℝ) : ℤ :=
  if 0 ≤ x then ⌊x⌋ else ⌈x⌉

/-- Number of mono samples: `int(sample_rate * duration)` (source line 31). -/
noncomputable def numSamples (sample_rate duration : ℝ) : ℕ :=
  (truncToZero (sample_rate * duration)).toNat

/-- `np.int16` cast of a float: truncate toward zero, then wrap into
the signed 16-bit range (two's-complement wraparound modulo 2^16). -/
noncomputable def toInt16 (x : ℝ) : ℤ :=
  Int.bmod (truncToZero x) 65536

/-- `t = np.linspace(0, duration, int(sample_rate*duration), endpoint=False)`:
`n` evenly spaced points starting at 0 with step `duration / n`. -/
noncomputable def sampleTimes (sample_rate duration : ℝ) : List ℝ :=
  (List.range (numSamples sample_rate duration)).map
    fun (i : ℕ) => duration * (i : ℝ) / (numSamples sample_rate duration)

/-- `sine_wave = amplitude * np.sin(2 * np.pi * frequency * t)` (line 32):
the floating mono sample values before integer conversion. -/
noncomputable def monoReal (sample_rate duration frequency amplitude : ℝ) : List ℝ :=
  (sampleTimes sample_rate duration).map
    fun t => amplitude * Real.sin (2 * π * frequency * t)

/-- `np.column_stack((x, x)).flatten()` (line 36): duplicate each mono sample
into left and right channel, interleaved. -/
def stereo (l : List ℤ) : List ℤ :=
  l.flatMap fun v => [v, v]

/-- `generate_sine_wave(sample_rate, duration, frequency, amplitude)`
(lines 22-37): int16 interleaved stereo samples of an amplitude-scaled sine. -/
noncomputable def generate_sine_wave (sample_rate duration frequency amplitude : ℝ) :
    List ℤ :=
  stereo ((monoReal sample_rate duration frequency amplitude).map
    fun x => toInt16 (x * 32767))

/-- Variant of `generate_sine_wave` whose integer conversion is a plain
truncation with no 2^16 wraparound; coincides with the real function exactly
when no sample overflows the int16 range. -/
noncomputable def generate_sine_wave_trunc (sample_rate duration frequency amplitude : ℝ) :
    List ℤ :=
  stereo ((monoReal sample_rate duration frequency amplitude).map
    fun x => truncToZero (x * 32767))

/-- `midi_to_freq` (lines 8-13): `440.0 * 2 ** ((midi_note - 69) / 12.0)`. -/
noncomputable def midi_to_freq (midi_note : ℤ) : ℝ :=
  440.0 * (2 : ℝ) ^ (((midi_note : ℝ) - 69) / 12.0)

/-- `db_to_amp` (lines 15-20): `10 ** (db / 20.0)`. -/
noncomputable def db_to_amp (db : ℝ) : ℝ :=
  (10 : ℝ) ^ (db / 20.0)

/-- The dict `rate_tags = {44100: '44', 48000: '48'}` (line 78). -/
def rate_tags (rate : ℕ) : Option String :=
  if rate = 44100 then some "44" else if rate = 48000 then some "48" else none

/-- Tag lookup as used by the driver (`rate_tags[sample_rate]`, line 93);
the driver only ever looks up the two keys present in the dict. -/
def rateTag (rate : ℕ) : String :=
  (rate_tags rate).getD ""

/-- Python `f'm{midi_note:03d}'` digits part: decimal, zero-padded to width 3. -/
def pad3 (n : ℕ) : String :=
  String.mk (List.replicate (3 - (toString n).length) '0' ++ (toString n).data)

/-- The filename `f'{note_str}-vel{vel}-f{rate_tags[sample_rate]}.wav'` with
`note_str = f'm{midi_note:03d}'` (lines 84, 93). -/
def filenameOf (note vel rate : ℕ) : String :=
  "m" ++ pad3 note ++ "-vel" ++ toString vel ++ "-f" ++ rateTag rate ++ ".wav"

/-- `sample_rates = [44100, 48000]` (line 77). -/
def sample_rates : List ℕ :=
  [44100, 48000]

/-- `db_levels = np.linspace(-30, -6, 8)` (line 80): with the endpoint
included, the step is `(-6 - -30) / (8 - 1)`. -/
noncomputable def dbLevel (vel : ℕ) : ℝ :=
  -30 + vel * ((-6 - -30) / 7)

/-- The loop nest of `main` (lines 82-95): notes 21-108 outer, velocities 0-7
middle, sample rates inner. -/
def allTriples : List (ℕ × ℕ × ℕ) :=
  (List.range' 21 88).product ((List.range 8).product sample_rates)

/-- The filenames one full run writes, in write order. -/
def allFilenames : List String :=
  allTriples.map fun t => filenameOf t.1 t.2.1 t.2.2

/-- One full run of the driver, modelled as the (filename, int16 samples)
pairs it writes, in write order: `duration = 5.0` (line 79), frequency from
`midi_to_freq`, amplitude from `db_to_amp` of the note's velocity level. -/
noncomputable def generatorRun : List (String × List ℤ) :=
  allTriples.map fun t =>
    (filenameOf t.1 t.2.1 t.2.2,
     generate_sine_wave t.2.2 5.0 (midi_to_freq t.1) (db_to_amp (dbLevel t.2.1)))

/-- Same run with the wraparound-free integer conversion. -/
noncomputable def generatorRunTrunc : List (String × List ℤ) :=
  allTriples.map fun t =>
    (filenameOf t.1 t.2.1 t.2.2,
     generate_sine_wave_trunc t.2.2 5.0 (midi_to_freq t.1) (db_to_amp (dbLevel t.2.1)))

/-- `struct.pack('<h', v)` (line 51): the two little-endian bytes of a 16-bit
signed value, two's complement. -/
def packInt16LE (v : ℤ) : List ℕ :=
  [(v % 65536).toNat % 256, (v % 65536).toNat / 256]

/-- The raw audio bytes `b''.join([struct.pack('<h', val) for val in data])`
(line 51) written into the WAV data chunk. -/
def fileBytes (samples : List ℤ) : List ℕ :=
  samples.flatMap packInt16LE

/-- `get_default_output_dir` (lines 54-63), with the platform test and the
home directory injected.  The Windows branch returns the *raw* Python string
`r'C:\\SoundBanks\\IthacaPlayer\\instrument'`, in which each doubled
backslash stays doubled; `os.path.expanduser` replaces the leading `~` with
the home directory. -/
def get_default_output_dir (isWindows : Bool) (home : String) : String :=
  if isWindows then "C:\\\\SoundBanks\\\\IthacaPlayer\\\\instrument"
  else home ++ "/Soundbank/IthacaPlayer/instrument"

/-- The first file one run writes: note 21, velocity 0, 44100 Hz. -/
noncomputable def firstFile : String × List ℤ :=
  (filenameOf 21 0 44100,
   generate_sine_wave ((44100 : ℕ) : ℝ) 5.0 (midi_to_freq ((21 : ℕ) : ℤ))
     (db_to_amp (dbLevel 0)))

theorem stereo_length (l : List ℤ) : (stereo l).length = 2 * l.length := by
  induction l with
  | nil => rfl
  | cons a l ih =>
    simp only [stereo, List.flatMap_cons] at ih ⊢
    simp [ih]
    ring

theorem stereo_pair (l : List ℤ) (i : ℕ) (h : i < l.length) :
    (stereo l)[2 * i]? = l[i]? ∧ (stereo l)[2 * i + 1]? = l[i]? := by
  induction l generalizing i with
  | nil => simp at h
  | cons a l ih =>
    cases i with
    | zero => simp [stereo]
    | succ n =>
      have h' : n < l.length := by simpa using h
      have hrec := ih n h'
      have e2 : 2 * (n + 1) = 2 * n + 1 + 1 := by ring
      rw [e2]
      simp only [stereo, List.flatMap_cons] at hrec ⊢
      simpa using hrec

theorem stereo_mem (l : List ℤ) (v : ℤ) (h : v ∈ stereo l) : v ∈ l := by
  rw [stereo] at h
  obtain ⟨a, ha, hv⟩ := List.mem_flatMap.mp h
  simp only [List.mem_cons, List.not_mem_nil, or_false] at hv
  rcases hv with rfl | rfl <;> exact ha

theorem toInt16_zero : toInt16 0 = 0 := by
  rw [toInt16, truncToZero]
  norm_num

/-- The first two interleaved samples are zero whenever there is at least one
frame: the first sample time is 0 and `sin 0 = 0`. -/
theorem gsw_head_zero (r d f a : ℝ) (h : 1 ≤ numSamples r d) :
    (generate_sine_wave r d f a)[0]? = some 0 ∧
    (generate_sine_wave r d f a)[1]? = some 0 := by
  obtain ⟨k, hk⟩ : ∃ k, numSamples r d = k + 1 := ⟨numSamples r d - 1, by omega⟩
  rw [generate_sine_wave, monoReal, sampleTimes, hk, List.range_succ_eq_map]
  simp only [List.map_cons, Nat.cast_zero, mul_zero, zero_div, Real.sin_zero, zero_mul]
  rw [toInt16_zero]
  simp [stereo, List.flatMap_cons]

theorem mem_of_getElem?_some (l : List ℤ) (n : ℕ) (a : ℤ) (h : l[n]? = some a) :
    a ∈ l := by
  obtain ⟨hn, rfl⟩ := List.getElem?_eq_some_iff.mp h
  exact List.getElem_mem hn

theorem truncToZero_abs_le (x : ℝ) (c : ℤ) (hc : 0 ≤ c) (h : |x| ≤ (c : ℝ)) :
    -c ≤ truncToZero x ∧ truncToZero x ≤ c := by
  obtain ⟨h1, h2⟩ := abs_le.mp h
  rw [truncToZero]
  split
  · constructor
    · have : (0 : ℤ) ≤ ⌊x⌋ := Int.floor_nonneg.mpr (by assumption)
      omega
    · calc ⌊x⌋ ≤ ⌊(c : ℝ)⌋ := Int.floor_le_floor h2
        _ = c := Int.floor_intCast c
  · constructor
    · calc -c = ⌈((-c : ℤ) : ℝ)⌉ := (Int.ceil_intCast (-c)).symm
        _ ≤ ⌈x⌉ := Int.ceil_le_ceil (by push_cast; linarith)
    · have hx : x < 0 := by linarith [not_le.mp (by assumption)]
      have : ⌈x⌉ ≤ ⌈(0 : ℝ)⌉ := Int.ceil_le_ceil hx.le
      simp at this
      omega

theorem bmod_eq_self_of_int16 (v : ℤ) (h1 : -32768 ≤ v) (h2 : v ≤ 32767) :
    Int.bmod v 65536 = v := by
  simp only [Int.bmod]
  split <;> omega

/-- Within the int16 range the `np.int16` cast does not wrap: it is the plain
truncation toward zero. -/
theorem toInt16_no_wrap (x : ℝ) (h : |x| ≤ 32767) : toInt16 x = truncToZero x := by
  have hc : |x| ≤ ((32767 : ℤ) : ℝ) := by push_cast; exact h
  obtain ⟨h1, h2⟩ := truncToZero_abs_le x 32767 (by norm_num) hc
  rw [toInt16]
  exact bmod_eq_self_of_int16 _ (by omega) h2

theorem abs_sin_mul_le (a θ : ℝ) (ha : 0 ≤ a) :
    |a * Real.sin θ * 32767| ≤ a * 32767 := by
  have hs : |Real.sin θ| ≤ 1 := Real.abs_sin_le_one θ
  have h0 : |Real.sin θ| ≥ 0 := abs_nonneg _
  rw [abs_mul, abs_mul, abs_of_nonneg ha]
  have h32 : |(32767 : ℝ)| = 32767 := by norm_num
  rw [h32]
  nlinarith

/-- Every sample of the wave is bounded by any int16-range bound on
`amplitude * 32767`. -/
theorem gsw_mem_abs_le (r d f a : ℝ) (b : ℤ) (ha : 0 ≤ a)
    (hab : a * 32767 ≤ (b : ℝ)) (hb : b ≤ 32767) :
    ∀ v ∈ generate_sine_wave r d f a, -b ≤ v ∧ v ≤ b := by
  intro v hv
  rw [generate_sine_wave] at hv
  obtain ⟨x, hx, rfl⟩ := List.mem_map.mp (stereo_mem _ _ hv)
  obtain ⟨t, _, rfl⟩ := List.mem_map.mp hx
  have hb0 : (0 : ℤ) ≤ b := by
    have : (0 : ℝ) ≤ a * 32767 := by positivity
    exact_mod_cast le_trans this hab
  have habs : |a * Real.sin (2 * π * f * t) * 32767| ≤ (b : ℝ) :=
    le_trans (abs_sin_mul_le a _ ha) hab
  have hwrap : toInt16 (a * Real.sin (2 * π * f * t) * 32767) =
      truncToZero (a * Real.sin (2 * π * f * t) * 32767) := by
    apply toInt16_no_wrap
    calc |a * Real.sin (2 * π * f * t) * 32767| ≤ (b : ℝ) := habs
      _ ≤ 32767 := by exact_mod_cast hb
  rw [hwrap]
  exact truncToZero_abs_le _ b hb0 habs

/-- When `0 ≤ amplitude ≤ 1` no sample overflows int16, so the cast never
wraps and the wave equals its truncation-only variant. -/
theorem gsw_eq_trunc (r d f a : ℝ) (ha0 : 0 ≤ a) (ha1 : a ≤ 1) :
    generate_sine_wave r d f a = generate_sine_wave_trunc r d f a := by
  rw [generate_sine_wave, generate_sine_wave_trunc]
  congr 1
  apply List.map_congr_left
  intro x hx
  obtain ⟨t, _, rfl⟩ := List.mem_map.mp hx
  apply toInt16_no_wrap
  calc |a * Real.sin (2 * π * f * t) * 32767| ≤ a * 32767 := abs_sin_mul_le a _ ha0
    _ ≤ 1 * 32767 := by nlinarith
    _ = 32767 := one_mul _

/-- Claim C3: for every integer `n`, `midi_to_freq n = 440 * 2^((n-69)/12)`
(a total function of the integer input), and `midi_to_freq 69 = 440` exactly. -/
theorem midi_to_freq_contract :
    (∀ n : ℤ, midi_to_freq n = 440.0 * (2 : ℝ) ^ (((n : ℝ) - 69) / 12.0)) ∧
    midi_to_freq 69 = 440.0 := by
  refine ⟨fun n => rfl, ?_⟩
  have h : (((69 : ℤ) : ℝ) - 69) / 12.0 = 0 := by norm_num
  rw [midi_to_freq, h, Real.rpow_zero, mul_one]

/-- Claim C4: `db_to_amp db = 10^(db/20)` for every real `db`,
`db_to_amp 0 = 1`, `db_to_amp (-20) = 1/10`, and for every level in the
supported range `[-30, -6]` the amplitude lies strictly between 0 and 1. -/
theorem db_to_amp_contract :
    (∀ db : ℝ, db_to_amp db = (10 : ℝ) ^ (db / 20.0)) ∧
    db_to_amp 0 = 1 ∧ db_to_amp (-20) = 1 / 10 ∧
    ∀ db : ℝ, -30 ≤ db → db ≤ -6 → 0 < db_to_amp db ∧ db_to_amp db < 1 := by
  refine ⟨fun db => rfl, ?_, ?_, fun db h30 h6 => ⟨?_, ?_⟩⟩
  · rw [db_to_amp]
    norm_num
  · rw [db_to_amp]
    have h : ((-20 : ℝ) / 20.0) = ((-1 : ℤ) : ℝ) := by norm_num
    rw [h, Real.rpow_intCast]
    norm_num
  · exact Real.rpow_pos_of_pos (by norm_num) _
  · apply Real.rpow_lt_one_of_one_lt_of_neg (by norm_num)
    linarith

/-- Witness for C4 at the concrete level `db = -20`. -/
theorem db_to_amp_contract_witness :
    0 < db_to_amp (-20) ∧ db_to_amp (-20) < 1 :=
  db_to_amp_contract.2.2.2 (-20) (by norm_num) (by norm_num)

/-- Claim C2: the interleaved result has length `2 * floor(sampleRate*duration)`
and in every frame the left-channel value equals the right-channel value. -/
theorem synthesize_stereo_interleave (r d f a : ℝ) :
    (generate_sine_wave r d f a).length = 2 * numSamples r d ∧
    ∀ i : ℕ, i < numSamples r d →
      (generate_sine_wave r d f a)[2 * i]? = (generate_sine_wave r d f a)[2 * i + 1]? := by
  have hlen : ((monoReal r d f a).map fun x => toInt16 (x * 32767)).length =
      numSamples r d := by
    simp [monoReal, sampleTimes]
  constructor
  · rw [generate_sine_wave, stereo_length, hlen]
  · intro i hi
    rw [← hlen] at hi
    obtain ⟨h1, h2⟩ := stereo_pair _ i hi
    rw [generate_sine_wave, h1, h2]

/-- Witness for C2 at `sampleRate = 1`, `duration = 1` (one frame). -/
theorem synthesize_stereo_interleave_witness :
    (generate_sine_wave 1 1 1 1).length = 2 * numSamples 1 1 ∧
    (generate_sine_wave 1 1 1 1)[2 * 0]? = (generate_sine_wave 1 1 1 1)[2 * 0 + 1]? :=
  ⟨(synthesize_stereo_interleave 1 1 1 1).1,
   (synthesize_stereo_interleave 1 1 1 1).2 0 (by norm_num [numSamples, truncToZero])⟩

/-- Claim C9: whenever at least one frame is produced, the first interleaved
pair is `(0, 0)` for every frequency and amplitude, because the first sample
time is 0 and `sin 0 = 0`. -/
theorem synthesize_first_frame_zero (r d f a : ℝ) (h : 1 ≤ numSamples r d) :
    (generate_sine_wave r d f a)[0]? = some 0 ∧
    (generate_sine_wave r d f a)[1]? = some 0 :=
  gsw_head_zero r d f a h

/-- Witness for C9 at `sampleRate = 1`, `duration = 1`, arbitrary tone. -/
theorem synthesize_first_frame_zero_witness :
    (generate_sine_wave 1 1 440 (1 / 2))[0]? = some 0 ∧
    (generate_sine_wave 1 1 440 (1 / 2))[1]? = some 0 :=
  synthesize_first_frame_zero 1 1 440 (1 / 2) (by norm_num [numSamples, truncToZero])

/-- Claim C1 as stated is false: `np.linspace(0, duration, n, endpoint=False)`
steps by `duration / n` with `n = floor(sampleRate * duration)`, which differs
from `1 / sampleRate` when `sampleRate * duration` is not an integer.  At
`sampleRate = 2`, `duration = 5/4` the two sample times are 0 and 5/8, not
0 and 1/2. -/
theorem sample_step_counterexample :
    sampleTimes 2 (5 / 4) = [0, 5 / 8] ∧
    sampleTimes 2 (5 / 4) ≠
      (List.range (numSamples 2 (5 / 4))).map (fun (i : ℕ) => (i : ℝ) * (1 / 2)) := by
  have hn : numSamples 2 (5 / 4) = 2 := by
    rw [numSamples, truncToZero]
    norm_num
    decide
  have ht : sampleTimes 2 (5 / 4) = [0, 5 / 8] := by
    rw [sampleTimes, hn]
    norm_num [List.range_succ]
  refine ⟨ht, ?_⟩
  rw [ht, hn]
  norm_num [List.range_succ]

/-- Claim C1 amended: the result has `floor(sampleRate*duration)` time samples,
evenly spaced from `t = 0` with step `duration / floor(sampleRate*duration)`
(excluding the end-of-duration instant), the i-th mono value before integer
conversion is `amplitude * sin(2π*frequency*t_i)`, and the step equals
`1/sampleRate` exactly when `sampleRate * duration` is a whole number. -/
theorem synthesize_times_and_values (r d f a : ℝ) (hr : 0 < r) (hd : 0 ≤ d) :
    ((numSamples r d : ℤ) = ⌊r * d⌋ ∧
     sampleTimes r d = (List.range (numSamples r d)).map
       (fun (i : ℕ) => d * (i : ℝ) / (numSamples r d))) ∧
    monoReal r d f a = (sampleTimes r d).map (fun t => a * Real.sin (2 * π * f * t)) ∧
    ((r * d = (numSamples r d : ℝ)) →
      sampleTimes r d = (List.range (numSamples r d)).map (fun (i : ℕ) => (i : ℝ) / r)) := by
  refine ⟨⟨?_, rfl⟩, rfl, ?_⟩
  · have h0 : (0 : ℝ) ≤ r * d := mul_nonneg hr.le hd
    rw [numSamples, truncToZero, if_pos h0, Int.toNat_of_nonneg (Int.floor_nonneg.mpr h0)]
  · intro hrd
    rcases Nat.eq_zero_or_pos (numSamples r d) with h0 | hpos
    · rw [sampleTimes, h0]
      simp
    · have hN : ((numSamples r d : ℝ)) ≠ 0 := by positivity
      have hd0 : d ≠ 0 := by
        intro hzero
        apply hN
        rw [← hrd, hzero, mul_zero]
      rw [sampleTimes]
      apply List.map_congr_left
      intro i _
      rw [← hrd]
      field_simp
      ring

/-- Witness for C1 (amended) at `sampleRate = 2`, `duration = 5/4`. -/
theorem synthesize_times_and_values_witness :
    ((numSamples 2 (5 / 4) : ℤ) = ⌊(2 : ℝ) * (5 / 4)⌋ ∧
     sampleTimes 2 (5 / 4) = (List.range (numSamples 2 (5 / 4))).map
       (fun (i : ℕ) => (5 / 4 : ℝ) * (i : ℝ) / (numSamples 2 (5 / 4)))) ∧
    monoReal 2 (5 / 4) 440 1 =
      (sampleTimes 2 (5 / 4)).map (fun t => 1 * Real.sin (2 * π * 440 * t)) ∧
    (((2 : ℝ) * (5 / 4) = (numSamples 2 (5 / 4) : ℝ)) →
      sampleTimes 2 (5 / 4) =
        (List.range (numSamples 2 (5 / 4))).map (fun (i : ℕ) => (i : ℝ) / 2)) :=
  synthesize_times_and_values 2 (5 / 4) 440 1 (by norm_num) (by norm_num)

/-- Claim C6: each floating mono sample is scaled by 32767 and truncated/cast
to int16; for every amplitude with `0 ≤ amplitude ≤ 1` no value exceeds the
int16 bounds, so the cast never wraps (`generate_sine_wave` coincides with its
wraparound-free variant). -/
theorem synthesize_no_overflow (r d f a : ℝ) (ha0 : 0 ≤ a) (ha1 : a ≤ 1) :
    generate_sine_wave r d f a = generate_sine_wave_trunc r d f a ∧
    ∀ v ∈ generate_sine_wave r d f a, -32767 ≤ v ∧ v ≤ 32767 := by
  refine ⟨gsw_eq_trunc r d f a ha0 ha1, ?_⟩
  have h1 : ∀ v ∈ generate_sine_wave r d f a, -(32767 : ℤ) ≤ v ∧ v ≤ 32767 :=
    gsw_mem_abs_le r d f a 32767 ha0 (by push_cast; nlinarith) le_rfl
  exact h1

/-- Witness for C6 at amplitude 1, `sampleRate = duration = 1`; the sole frame
holds the value 0, which the theorem bounds. -/
theorem synthesize_no_overflow_witness :
    generate_sine_wave 1 1 1 1 = generate_sine_wave_trunc 1 1 1 1 ∧
    (-32767 ≤ (0 : ℤ) ∧ (0 : ℤ) ≤ 32767) :=
  ⟨(synthesize_no_overflow 1 1 1 1 (by norm_num) (by norm_num)).1,
   (synthesize_no_overflow 1 1 1 1 (by norm_num) (by norm_num)).2 0
     (mem_of_getElem?_some _ 0 0
       (gsw_head_zero 1 1 1 1 (by norm_num [numSamples, truncToZero])).1)⟩

theorem pad3_map_nodup : ((List.range' 21 88).map pad3).Nodup := by decide

theorem pad3_len3 : ∀ n ∈ List.range' 21 88, (pad3 n).data.length = 3 := by decide

theorem velStr_map_nodup : ((List.range 8).map (fun v : ℕ => toString v)).Nodup := by
  decide

theorem velStr_len1 : ∀ v ∈ List.range 8, (toString v).data.length = 1 := by decide

theorem rateTag_len2 : ∀ r ∈ sample_rates, (rateTag r).data.length = 2 := by decide

theorem rateTag_inj : ∀ r₁ ∈ sample_rates, ∀ r₂ ∈ sample_rates,
    rateTag r₁ = rateTag r₂ → r₁ = r₂ := by decide

theorem string_eq_of_data (s t : String) (h : s.data = t.data) : s = t := by
  cases s
  cases t
  exact congrArg String.mk h

/-- Over the enumerated domain, `filenameOf` is injective: the fixed-width
note, velocity and rate fields of the filename determine the triple. -/
theorem filenameOf_inj :
    ∀ n₁ ∈ List.range' 21 88, ∀ v₁ ∈ List.range 8, ∀ r₁ ∈ sample_rates,
    ∀ n₂ ∈ List.range' 21 88, ∀ v₂ ∈ List.range 8, ∀ r₂ ∈ sample_rates,
    filenameOf n₁ v₁ r₁ = filenameOf n₂ v₂ r₂ → n₁ = n₂ ∧ v₁ = v₂ ∧ r₁ = r₂ := by
  intro n₁ hn₁ v₁ hv₁ r₁ hr₁ n₂ hn₂ v₂ hv₂ r₂ hr₂ h
  have hdata : (filenameOf n₁ v₁ r₁).data = (filenameOf n₂ v₂ r₂).data := by rw [h]
  simp only [filenameOf, String.data_append, List.append_assoc] at hdata
  obtain ⟨-, hdata⟩ := List.append_inj hdata rfl
  obtain ⟨hpad, hdata⟩ := List.append_inj hdata
    (by rw [pad3_len3 n₁ hn₁, pad3_len3 n₂ hn₂])
  have hn : n₁ = n₂ :=
    List.inj_on_of_nodup_map pad3_map_nodup hn₁ hn₂ (string_eq_of_data _ _ hpad)
  have hdata := List.append_cancel_left hdata
  obtain ⟨hvel, hdata⟩ := List.append_inj hdata
    (by rw [velStr_len1 v₁ hv₁, velStr_len1 v₂ hv₂])
  have hv : v₁ = v₂ :=
    List.inj_on_of_nodup_map velStr_map_nodup hv₁ hv₂ (string_eq_of_data _ _ hvel)
  have hdata := List.append_cancel_left hdata
  obtain ⟨hrate, -⟩ := List.append_inj hdata
    (by rw [rateTag_len2 r₁ hr₁, rateTag_len2 r₂ hr₂])
  exact ⟨hn, hv, rateTag_inj r₁ hr₁ r₂ hr₂ (string_eq_of_data _ _ hrate)⟩

theorem allTriples_nodup : allTriples.Nodup := by
  apply List.Nodup.product
  · exact List.nodup_range' 21 88
  · exact List.Nodup.product (List.nodup_range 8) (by decide)

theorem mem_allTriples (t : ℕ × ℕ × ℕ) (ht : t ∈ allTriples) :
    t.1 ∈ List.range' 21 88 ∧ t.2.1 ∈ List.range 8 ∧ t.2.2 ∈ sample_rates := by
  obtain ⟨n, v, r⟩ := t
  rw [allTriples] at ht
  have h := List.mem_product.mp ht
  exact ⟨h.1, (List.mem_product.mp h.2).1, (List.mem_product.mp h.2).2⟩

theorem allFilenames_nodup : allFilenames.Nodup := by
  apply List.Nodup.map_on _ allTriples_nodup
  intro t₁ ht₁ t₂ ht₂ heq
  obtain ⟨hn₁, hv₁, hr₁⟩ := mem_allTriples t₁ ht₁
  obtain ⟨hn₂, hv₂, hr₂⟩ := mem_allTriples t₂ ht₂
  obtain ⟨e1, e2, e3⟩ :=
    filenameOf_inj t₁.1 hn₁ t₁.2.1 hv₁ t₁.2.2 hr₁ t₂.1 hn₂ t₂.2.1 hv₂ t₂.2.2 hr₂ heq
  obtain ⟨n₁, v₁, r₁⟩ := t₁
  obtain ⟨n₂, v₂, r₂⟩ := t₂
  simp only at e1 e2 e3
  simp [e1, e2, e3]

/-- Claim C5: over the full enumeration (notes 21-108, tiers 0-7, both rates)
the filenames are pairwise distinct, a full run writes exactly
88 × 8 × 2 = 1408 of them, and the convention is reproduced bit-for-bit:
`m069-vel7-f44.wav` for note 69, tier 7, 44100 Hz. -/
theorem filename_convention :
    allFilenames.length = 1408 ∧ allFilenames.Nodup ∧
    filenameOf 69 7 44100 = "m069-vel7-f44.wav" :=
  ⟨by decide, allFilenames_nodup, by decide⟩

theorem firstFile_mem : firstFile ∈ generatorRun :=
  List.mem_map.mpr ⟨(21, 0, 44100), by decide, rfl⟩

theorem numSamples_44100_5 : 1 ≤ numSamples ((44100 : ℕ) : ℝ) 5.0 := by
  rw [numSamples, truncToZero]
  push_cast
  norm_num

theorem zero_mem_firstFile : (0 : ℤ) ∈ firstFile.2 :=
  mem_of_getElem?_some _ 0 0
    (gsw_head_zero ((44100 : ℕ) : ℝ) 5.0 (midi_to_freq ((21 : ℕ) : ℤ))
      (db_to_amp (dbLevel 0)) numSamples_44100_5).1

/-- Claim C7: the run is deterministic — the data written under a filename is
a function of that filename alone, so a second run over the same directory
rewrites every file with byte-identical contents (no randomness, no
timestamps, no run-dependent data in any output). -/
theorem run_deterministic (p q : String × List ℤ)
    (hp : p ∈ generatorRun) (hq : q ∈ generatorRun) (hname : p.1 = q.1) :
    p.2 = q.2 ∧ fileBytes p.2 = fileBytes q.2 := by
  obtain ⟨t₁, ht₁, rfl⟩ := List.mem_map.mp hp
  obtain ⟨t₂, ht₂, rfl⟩ := List.mem_map.mp hq
  obtain ⟨hn₁, hv₁, hr₁⟩ := mem_allTriples t₁ ht₁
  obtain ⟨hn₂, hv₂, hr₂⟩ := mem_allTriples t₂ ht₂
  obtain ⟨e1, e2, e3⟩ :=
    filenameOf_inj t₁.1 hn₁ t₁.2.1 hv₁ t₁.2.2 hr₁ t₂.1 hn₂ t₂.2.1 hv₂ t₂.2.2 hr₂ hname
  obtain ⟨n₁, v₁, r₁⟩ := t₁
  obtain ⟨n₂, v₂, r₂⟩ := t₂
  simp only at e1 e2 e3
  subst e1
  subst e2
  subst e3
  exact ⟨rfl, rfl⟩

/-- Witness for C7 at the first file of the run. -/
theorem run_deterministic_witness :
    firstFile.2 = firstFile.2 ∧ fileBytes firstFile.2 = fileBytes firstFile.2 :=
  run_deterministic firstFile firstFile firstFile_mem firstFile_mem rfl

/-- Claim C8 fails as stated: the Windows default is a Python *raw* string in
which the doubled backslashes survive, so it is not the single-backslash
literal `C:\SoundBanks\IthacaPlayer\instrument`. -/
theorem default_dir_counterexample :
    get_default_output_dir true "" ≠ "C:\\SoundBanks\\IthacaPlayer\\instrument" := by
  decide

/-- Claim C8 amended: with `--output-dir` absent, the directory resolves on
Windows to the literal string `C:\\SoundBanks\\IthacaPlayer\\instrument`
(every backslash doubled, as in the source's raw string), and otherwise to
`~/Soundbank/IthacaPlayer/instrument` expanded under the user's home. -/
theorem default_dir_resolution (home : String) :
    get_default_output_dir true home = "C:\\\\SoundBanks\\\\IthacaPlayer\\\\instrument" ∧
    get_default_output_dir false home = home ++ "/Soundbank/IthacaPlayer/instrument" :=
  ⟨rfl, rfl⟩

theorem dbLevel_le (v : ℕ) (hv : v ∈ List.range 8) : dbLevel v ≤ -6 := by
  have h7 : (v : ℝ) ≤ 7 := by
    have := List.mem_range.mp hv
    exact_mod_cast Nat.lt_succ_iff.mp this
  have h0 : (0 : ℝ) ≤ (v : ℝ) := Nat.cast_nonneg v
  rw [dbLevel]
  nlinarith

/-- The loudest driver amplitude times 32767 stays below 16423. -/
theorem amp_scale_bound : (10 : ℝ) ^ ((-6 : ℝ) / 20.0) * 32767 ≤ 16423 := by
  have hpos : (0 : ℝ) < (10 : ℝ) ^ ((6 : ℝ) / 20.0) :=
    Real.rpow_pos_of_pos (by norm_num) _
  have hkey : (32767 / 16423 : ℝ) ≤ (10 : ℝ) ^ ((6 : ℝ) / 20.0) := by
    apply le_of_pow_le_pow_left₀ (by norm_num : (10 : ℕ) ≠ 0) hpos.le
    have h10 : ((10 : ℝ) ^ ((6 : ℝ) / 20.0)) ^ (10 : ℕ) = (10 : ℝ) ^ (3 : ℝ) := by
      rw [← Real.rpow_natCast ((10 : ℝ) ^ ((6 : ℝ) / 20.0)) 10,
        ← Real.rpow_mul (by norm_num)]
      norm_num
    have h1000 : (10 : ℝ) ^ (3 : ℝ) = 1000 := by
      rw [show (3 : ℝ) = ((3 : ℕ) : ℝ) by norm_num, Real.rpow_natCast]
      norm_num
    rw [h10, h1000]
    norm_num
  have hneg : (10 : ℝ) ^ ((-6 : ℝ) / 20.0) = ((10 : ℝ) ^ ((6 : ℝ) / 20.0))⁻¹ := by
    rw [← Real.rpow_neg (by norm_num)]
    norm_num
  rw [hneg, inv_mul_le_iff₀ hpos]
  calc (32767 : ℝ) = 16423 * (32767 / 16423) := by norm_num
    _ ≤ 16423 * (10 : ℝ) ^ ((6 : ℝ) / 20.0) := by nlinarith
    _ = (10 : ℝ) ^ ((6 : ℝ) / 20.0) * 16423 := by ring

/-- Claim C10: the driver only synthesizes with the 8 level amplitudes, all at
most `10^(-6/20)`; consequently every int16 sample in every written file has
magnitude at most 16423, and the int16 wraparound edge case is unreachable
(the whole run equals its wraparound-free variant). -/
theorem driver_samples_bounded :
    (∀ v ∈ List.range 8, db_to_amp (dbLevel v) ≤ (10 : ℝ) ^ ((-6 : ℝ) / 20.0)) ∧
    (∀ p ∈ generatorRun, ∀ x ∈ p.2, -16423 ≤ x ∧ x ≤ 16423) ∧
    generatorRun = generatorRunTrunc := by
  have hamp : ∀ v ∈ List.range 8,
      db_to_amp (dbLevel v) ≤ (10 : ℝ) ^ ((-6 : ℝ) / 20.0) := by
    intro v hv
    rw [db_to_amp, Real.rpow_le_rpow_left_iff (by norm_num : (1 : ℝ) < 10)]
    have := dbLevel_le v hv
    linarith
  refine ⟨hamp, ?_, ?_⟩
  · intro p hp x hx
    obtain ⟨t, ht, rfl⟩ := List.mem_map.mp hp
    obtain ⟨-, hv, -⟩ := mem_allTriples t ht
    have ha0 : 0 ≤ db_to_amp (dbLevel t.2.1) :=
      (Real.rpow_pos_of_pos (by norm_num) _).le
    have hab : db_to_amp (dbLevel t.2.1) * 32767 ≤ ((16423 : ℤ) : ℝ) := by
      push_cast
      calc db_to_amp (dbLevel t.2.1) * 32767
          ≤ (10 : ℝ) ^ ((-6 : ℝ) / 20.0) * 32767 :=
            mul_le_mul_of_nonneg_right (hamp t.2.1 hv) (by norm_num)
        _ ≤ 16423 := amp_scale_bound
    exact gsw_mem_abs_le _ _ _ _ 16423 ha0 hab (by norm_num) x hx
  · rw [generatorRun, generatorRunTrunc]
    apply List.map_congr_left
    intro t ht
    obtain ⟨-, hv, -⟩ := mem_allTriples t ht
    have ha0 : 0 ≤ db_to_amp (dbLevel t.2.1) :=
      (Real.rpow_pos_of_pos (by norm_num) _).le
    have ha1 : db_to_amp (dbLevel t.2.1) ≤ 1 := by
      apply le_of_lt
      apply Real.rpow_lt_one_of_one_lt_of_neg (by norm_num)
      have := dbLevel_le t.2.1 hv
      linarith
    rw [gsw_eq_trunc _ _ _ _ ha0 ha1]

/-- Witness for C10 at velocity tier 0 and the run's first file, whose first
sample is 0. -/
theorem driver_samples_bounded_witness :
    db_to_amp (dbLevel 0) ≤ (10 : ℝ) ^ ((-6 : ℝ) / 20.0) ∧
    (-16423 ≤ (0 : ℤ) ∧ (0 : ℤ) ≤ 16423) ∧
    generatorRun = generatorRunTrunc :=
  ⟨driver_samples_bounded.1 0 (by decide),
   driver_samples_bounded.2.1 firstFile firstFile_mem 0 zero_mem_firstFile,
   driver_samples_bounded.2.2⟩
